import Mathlib

/-!
Verification of the go-fio filesystem toolkit against its specification.

The development shallowly embeds the parts of the source the claims are
about: the Info binary codec (info_marshal.go, encdec.go), the Xattr
equality test (copy_mmap.go / xattr.go), the SafeFile state machine
(safefile.go), the Linux range-copy loop (copy_linux.go), the walker's
per-entry filter pipeline (walk.go), the tree differencer (cmp engine)
and the tree cloner's funny-entry refusal (clone/tree.go), and the
CopyFile overwrite pre-check (copyfile.go, errors.go).

Byte buffers are lists of naturals (each < 256 by construction); machine
integer wraparound is modelled with explicit `% 2^32` / `% 2^64`;
fallible Go code returns an explicit result type distinguishing a
returned error from a runtime panic (out-of-bounds slice access).
-/

namespace Fio

/-- Big-endian byte encoding of `n`, `w` bytes wide, mirroring
`binary.BigEndian.PutUint32/PutUint64` (the value is implicitly reduced
mod `256^w`, exactly like Go's `uint32(n)` / `uint64(n)` conversions). -/
def encBE : Nat → Nat → List Nat
  | 0, _ => []
  | w + 1, n => encBE w (n / 256) ++ [n % 256]

/-- Big-endian accumulator decode of `w` bytes, mirroring
`binary.BigEndian.Uint32/Uint64`.  `none` models the Go runtime panic
when fewer than `w` bytes remain (slicing `b[:w]` out of bounds). -/
def decBEAux : Nat → Nat → List Nat → Option (List Nat × Nat)
  | 0, acc, b => some (b, acc)
  | _ + 1, _, [] => none
  | w + 1, acc, x :: b => decBEAux w (acc * 256 + x) b

/-- Mirrors `enc32` of encdec.go: write a 32-bit big-endian value and
advance the buffer. -/
def enc32 (n : Nat) : List Nat := encBE 4 n

/-- Mirrors `enc64` of encdec.go. -/
def enc64 (n : Nat) : List Nat := encBE 8 n

/-- Mirrors `dec32` of encdec.go. -/
def dec32 (b : List Nat) : Option (List Nat × Nat) := decBEAux 4 0 b

/-- Mirrors `dec64` of encdec.go. -/
def dec64 (b : List Nat) : Option (List Nat × Nat) := decBEAux 8 0 b

/-- Go `time.Time` restricted to what the codec observes: `Unix()`
seconds and `Nanosecond()` (always in `[0, 1e9)` for a real
`time.Time`). -/
structure GoTime where
  sec : Int
  nsec : Nat
deriving DecidableEq, Repr

/-- Go's `uint64(i)` conversion of a signed 64-bit value (two's
complement reduction mod `2^64`). -/
def toUint64 (i : Int) : Nat := (i % (2 ^ 64)).toNat

/-- Reinterpret an unsigned 64-bit value as Go `int64`. -/
def int64ofUint64 (n : Nat) : Int :=
  if n < 2 ^ 63 then (n : Int) else (n : Int) - 2 ^ 64

/-- Mirrors `enctime` of encdec.go:
`ns := uint64(t.Unix()) * uint64(time.Second); ns += uint64(t.Nanosecond())`
with uint64 arithmetic wrapping mod `2^64`, then `enc64`. -/
def enctime (t : GoTime) : List Nat :=
  enc64 ((toUint64 t.sec * 1000000000 + t.nsec) % 2 ^ 64)

/-- Mirrors `dectime` of encdec.go: `dec64`, then
`time.Unix(int64(val / 1e9), int64(val % 1e9))`. -/
def dectime (b : List Nat) : Option (List Nat × GoTime) :=
  match dec64 b with
  | none => none
  | some (rest, val) =>
      some (rest, ⟨int64ofUint64 (val / 1000000000), val % 1000000000⟩)

/-- Value decoded by `dectime` right after `enctime`, in closed form. -/
def timeWire (t : GoTime) : GoTime :=
  ⟨int64ofUint64 (((toUint64 t.sec * 1000000000 + t.nsec) % 2 ^ 64) / 1000000000),
   ((toUint64 t.sec * 1000000000 + t.nsec) % 2 ^ 64) % 1000000000⟩

/-- A Go time the codec can represent faithfully: at or after the Unix
epoch, and within `2^64` nanoseconds of it. -/
def GoTime.encodable (t : GoTime) : Prop :=
  0 ≤ t.sec ∧ t.nsec < 1000000000 ∧ t.sec * 1000000000 + t.nsec < 2 ^ 64

instance (t : GoTime) : Decidable t.encodable := by
  unfold GoTime.encodable; infer_instance

/-- Result of a Go decoding routine.  `panics` models a runtime panic
from an out-of-bounds slice access; `tooSmall` models a returned error
wrapping `ErrTooSmall`. -/
inductive DRes (α : Type) where
  | panics : DRes α
  | tooSmall : DRes α
  | ok : α → DRes α
deriving DecidableEq

/-- Mirrors `encstr` of encdec.go: 4-byte length then the raw bytes. -/
def encstr (s : List Nat) : List Nat := enc32 s.length ++ s

/-- Mirrors `decstr` of encdec.go: it pre-checks 4 bytes for the length,
then checks `n <= len(b)` before slicing, so it returns an error (never
panics) on truncated input.  Returns (rest, bytes). -/
def decstr (b : List Nat) : DRes (List Nat × List Nat) :=
  if b.length < 4 then .tooSmall
  else
    match dec32 b with
    | none => .panics
    | some (b1, n) =>
        if n ≤ b1.length then .ok (b1.drop n, b1.take n) else .tooSmall

/-- Go `Xattr` (a `map[string]string`) modelled as an association list
of byte strings; a Go map has no duplicate keys and an arbitrary
iteration order, which the list fixes. -/
abbrev XattrL := List (List Nat × List Nat)

/-- Mirrors `xattrlen` of info_marshal.go. -/
def xattrlen (x : XattrL) : Nat :=
  4 + (x.map (fun kv => 8 + kv.1.length + kv.2.length)).sum

/-- Byte total of the key/value records of `x` (the value the Go
`encxattr` accumulates in `z` and writes into the reserved length
slot). -/
def xattrBlob (x : XattrL) : Nat :=
  (x.map (fun kv => 8 + kv.1.length + kv.2.length)).sum

/-- Key/value records written by the loop of `encxattr`:
`{klen(4) vlen(4) key value}` repeated. -/
def encxattrPairs (x : XattrL) : List Nat :=
  x.foldr (fun kv acc => enc32 kv.1.length ++ enc32 kv.2.length ++ kv.1 ++ kv.2 ++ acc) []

/-- Mirrors `encxattr` of info_marshal.go: the reserved 4-byte blob
length (filled in at the end with the accumulated byte count) followed
by the key/value records. -/
def encxattr (x : XattrL) : List Nat := enc32 (xattrBlob x) ++ encxattrPairs x

/-- Loop of `decxattr`.  `z` is the remaining declared blob length (Go
tracks it as an `int`, which can go negative); the loop exits when
`z <= 0`.  The`fuel` argument only makes the recursion structural: every
Go iteration consumes at least 8 bytes of `b` after a `len(b) >= 8`
check, so with `fuel = b.length + 1` the 0-fuel branch is unreachable. -/
def decxattrLoop : Nat → Int → List Nat → DRes XattrL
  | 0, _, _ => .tooSmall
  | fuel + 1, z, b =>
    if z ≤ 0 then .ok []
    else if b.length < 8 then .tooSmall
    else
      match dec32 b with
      | none => .panics
      | some (b1, kl) =>
        match dec32 b1 with
        | none => .panics
        | some (b2, vl) =>
          if b2.length < kl then .tooSmall
          else
            let k := b2.take kl
            let b3 := b2.drop kl
            if b3.length < vl then .tooSmall
            else
              let v := b3.take vl
              let b4 := b3.drop vl
              match decxattrLoop fuel (z - 8 - (kl : Int) - (vl : Int)) b4 with
              | .panics => .panics
              | .tooSmall => .tooSmall
              | .ok rest => .ok ((k, v) :: rest)

/-- Mirrors `decxattr` of info_marshal.go.  Note the returned remainder
is `ret := b[z:]`, computed from the declared blob length before the
loop runs. -/
def decxattr (b : List Nat) : DRes (XattrL × List Nat) :=
  if b.length < 4 then .tooSmall
  else
    match dec32 b with
    | none => .panics
    | some (b1, z) =>
      if b1.length < z then .tooSmall
      else
        match decxattrLoop (b1.length + 1) (z : Int) b1 with
        | .panics => .panics
        | .tooSmall => .tooSmall
        | .ok x => .ok (x, b1.drop z)

/-- The `fio.Info` record as read and written by the codec of
info_marshal.go: `Ino`, `Siz`, `Dev`, `Rdev`, `Mod`, `Uid`, `Gid`,
`Nlink`, the three timestamps, the name `Nam` and the xattr map.
Unsigned fields are naturals (reduced mod their width by the encoders),
`Siz` is the signed int64 `Size`. -/
structure Info where
  ino : Nat
  siz : Int
  dev : Nat
  rdev : Nat
  mod : Nat
  uid : Nat
  gid : Nat
  nlink : Nat
  atim : GoTime
  mtim : GoTime
  ctim : GoTime
  nam : List Nat
  xattr : XattrL
deriving DecidableEq

/-- Mirrors `MarshalSize` of info_marshal.go (the version that counts
`(2*8) + (4*4) + (3*8)` fixed bytes plus `3*12` for the time fields). -/
def Info.MarshalSize (ii : Info) : Nat :=
  ii.nam.length + (2 * 8 + 4 * 4 + 3 * 8) + 3 * 12 + xattrlen ii.xattr + 4

/-- Bytes actually written by `MarshalTo` of info_marshal.go, in
order: length prefix `sz-4`, ino, nlink (8 bytes each), mod, uid, gid
(4 bytes each), siz, dev, rdev (8 bytes each), the three times, the
name, the xattr blob. -/
def marshalContent (ii : Info) : List Nat :=
  enc32 (ii.MarshalSize - 4) ++
  enc64 ii.ino ++ enc64 ii.nlink ++
  enc32 ii.mod ++ enc32 ii.uid ++ enc32 ii.gid ++
  enc64 (toUint64 ii.siz) ++ enc64 ii.dev ++ enc64 ii.rdev ++
  enctime ii.atim ++ enctime ii.mtim ++ enctime ii.ctim ++
  encstr ii.nam ++ encxattr ii.xattr

/-- Mirrors `Marshal` of info_marshal.go: allocate a zero-filled buffer
of `MarshalSize() + 4` bytes, let `MarshalTo` fill its front, and
return the whole buffer. -/
def Info.Marshal (ii : Info) : List Nat :=
  marshalContent ii ++
    List.replicate (ii.MarshalSize + 4 - (marshalContent ii).length) 0

/-- The fixed-width block of `Unmarshal`: `dec64` for ino and nlink,
`dec32` for mod, uid and gid, `dec64` for siz, dev and rdev, then the
three `dectime` calls, exactly in source order.  `none` is an
out-of-bounds panic in one of the unchecked decoders. -/
def decFixed (b1 : List Nat) :
    Option (List Nat × Nat × Nat × Nat × Nat × Nat × Nat × Nat × Nat ×
            GoTime × GoTime × GoTime) :=
  match dec64 b1 with
  | none => none
  | some (b2, ino) =>
  match dec64 b2 with
  | none => none
  | some (b3, nlink) =>
  match dec32 b3 with
  | none => none
  | some (b4, mo) =>
  match dec32 b4 with
  | none => none
  | some (b5, uid) =>
  match dec32 b5 with
  | none => none
  | some (b6, gid) =>
  match dec64 b6 with
  | none => none
  | some (b7, sizU) =>
  match dec64 b7 with
  | none => none
  | some (b8, dev) =>
  match dec64 b8 with
  | none => none
  | some (b9, rdev) =>
  match dectime b9 with
  | none => none
  | some (b10, atim) =>
  match dectime b10 with
  | none => none
  | some (b11, mtim) =>
  match dectime b11 with
  | none => none
  | some (b12, ctim) =>
    some (b12, ino, nlink, mo, uid, gid, sizU, dev, rdev, atim, mtim, ctim)

/-- Mirrors `Unmarshal` of info_marshal.go (the version cited by the
claims, which checks `len(b) < 4` and `len(b) < z` but has no
fixed-size check before the fixed-width decoders). -/
def Info.Unmarshal (b : List Nat) : DRes (Info × Nat) :=
  if b.length < 4 then .tooSmall
  else
    match dec32 b with
    | none => .panics
    | some (b1, z) =>
      if b1.length < z then .tooSmall
      else
        match decFixed b1 with
        | none => .panics
        | some (b12, ino, nlink, mo, uid, gid, sizU, dev, rdev, atim, mtim, ctim) =>
          match decstr b12 with
          | .panics => .panics
          | .tooSmall => .tooSmall
          | .ok (b13, nam) =>
            match decxattr b13 with
            | .panics => .panics
            | .tooSmall => .tooSmall
            | .ok (x, _) =>
              .ok (⟨ino, int64ofUint64 sizU, dev, rdev, mo, uid, gid, nlink,
                    atim, mtim, ctim, nam, x⟩, z + 4)

/-- Go `error` values carried around by the models below, reduced to
their message strings. -/
abbrev GoErr := String

/-- Mirrors the Go map lookup `b, ok := y[x]` on the association-list
model of `Xattr`. -/
def xattrLookup (y : XattrL) (k : List Nat) : Option (List Nat) :=
  match y.find? (fun kv => kv.1 == k) with
  | none => none
  | some kv => some kv.2

/-- First loop of `Xattr.Equal` (xattr.go): for every pair `(x, a)` of
the receiver, fail if `y` lacks the key or maps it to a different
value.  (The loop also stores each visited key in `done`; since the
function returns early on any failure, reaching the second loop means
`done` holds exactly the receiver's keys, which is how `Xattr.Equal`
below passes it on.) -/
def equalLoop1 (y : XattrL) : XattrL → Bool
  | [] => true
  | (k, a) :: rest =>
    match xattrLookup y k with
    | none => false
    | some b => if a == b then equalLoop1 y rest else false

/-- Second loop of `Xattr.Equal` as written in the source:
`for y, _ := range x { if _, ok := done[y]; !ok { return false } }` —
the loop variable shadows the argument `y` and ranges over `x`, so it
checks the keys of `x` (not of `y`) against `done`. -/
def equalLoop2 (done : List (List Nat)) : XattrL → Bool
  | [] => true
  | (k, _) :: rest => if done.contains k then equalLoop2 done rest else false

/-- Mirrors `Xattr.Equal` of xattr.go: run the first loop; if it
completes, run the second loop with `done` = the receiver's keys. -/
def Xattr.Equal (x y : XattrL) : Bool :=
  if equalLoop1 y x then equalLoop2 (x.map Prod.fst) x else false

/-- State of a `SafeFile` handle (safefile.go): the sticky write error
`err`, the atomic `closed` counter (`< 0` aborted, `> 0` closed,
`= 0` open and active), whether the scratch file still exists on disk,
and whether it has been renamed onto the target. -/
structure SFState where
  err : Option GoErr
  closedState : Int
  scratch : Bool
  renamed : Bool
deriving DecidableEq

/-- The `errAborted` sentinel of safefile.go. -/
def errAborted : GoErr := "safefile: aborted; file not committed"

/-- Mirrors `SafeFile.Abort`: a no-op unless the handle is open;
otherwise close the descriptor, remove the scratch file, and store -1,
retaining any previous sticky error. -/
def SafeFile.Abort (sf : SFState) : SFState :=
  if sf.closedState < 0 ∨ 0 < sf.closedState then sf
  else { sf with scratch := false, closedState := -1 }

/-- Mirrors `SafeFile.Close`.  The three oracles are the outcomes of
`Sync()`, `File.Close()` and `os.Rename(scratch, target)`; the function
returns the error Go's `Close` returns together with the new handle
state.  Note the source aborts only when entered with a sticky error:
a failure of sync/close/rename just records the sticky error and
returns it. -/
def SafeFile.Close (sf : SFState) (syncRes closeRes renameRes : Option GoErr) :
    Option GoErr × SFState :=
  match sf.err with
  | some e => (some e, SafeFile.Abort sf)
  | none =>
    if sf.closedState < 0 then (some errAborted, sf)
    else if 0 < sf.closedState then (none, sf)
    else
      match syncRes with
      | some e => (some e, { sf with err := some e })
      | none =>
        match closeRes with
        | some e => (some e, { sf with err := some e })
        | none =>
          match renameRes with
          | some e => (some e, { sf with err := some e })
          | none => (none, { sf with closedState := 1, scratch := false, renamed := true })

/-- Mirrors `_ioChunkSize` of copy_linux.go ("Do copies in chunks of
1GB"). -/
def _ioChunkSize : Nat := 1024 * 1048576

/-- Mirrors the `CopyError` struct of errors.go. -/
structure CopyError where
  op : String
  src : String
  dst : String
  err : Option GoErr
deriving DecidableEq

/-- Mirrors `CopyError.Error()`, which formats
`"copyfile: %s '%s' '%s': %s"` calling `e.Err.Error()`.  When the
wrapped `Err` is nil that call dereferences a nil interface and panics;
the panic is modelled as `none`. -/
def CopyError.errorString (e : CopyError) : Option String :=
  match e.err with
  | none => none
  | some s => some ("copyfile: " ++ e.op ++ " '" ++ e.src ++ "' '" ++ e.dst ++ "': " ++ s)

/-- Per-iteration request size of the `copy_file_range` loop:
`n := min(_ioChunkSize, int(sz))`. -/
def chunkReq (sz : Int) : Nat := min _ioChunkSize sz.toNat

/-- The `copy_file_range` fallback loop of `sys_copyFile`
(copy_linux.go).  `sz` is the remaining byte count; each iteration
requests `chunkReq sz` bytes and the `kernel` oracle answers with
`none` (an errno) or `some m` bytes transferred.  `m = 0` fails with
the "zero sized transfer" error; otherwise `sz` is reduced by `m`.
Returns the list of requested chunk sizes and the final error, if any.
The `fuel` argument only makes the recursion structural: each iteration
transfers at least one byte, so with `fuel = sz.toNat + 1` (as
`sys_copyFile` below passes) the 0-fuel branch is unreachable. -/
def copyLoop (kernel : Nat → Option Nat) (srcName dstName : String) :
    Nat → Int → List Nat × Option CopyError
  | 0, _ => ([], none)
  | fuel + 1, sz =>
    if 0 < sz then
      match kernel (chunkReq sz) with
      | none => ([chunkReq sz], some ⟨"copy_file_range", srcName, dstName, some "errno"⟩)
      | some m =>
        if m = 0 then
          ([chunkReq sz],
            some ⟨"copy_file_range", srcName, dstName, some "zero sized transfer"⟩)
        else
          let rest := copyLoop kernel srcName dstName fuel (sz - (m : Int))
          (chunkReq sz :: rest.1, rest.2)
    else ([], none)

/-- Mirrors `sys_copyFile` of copy_linux.go: try `IoctlFileClone`
(reflink); on success, done; otherwise stat the source and run the
`copy_file_range` loop over its size. -/
def sys_copyFile (reflinkOk : Bool) (statRes : Option GoErr) (size : Int)
    (kernel : Nat → Option Nat) (srcName dstName : String) :
    List Nat × Option CopyError :=
  if reflinkOk then ([], none)
  else
    match statRes with
    | some _ => ([], some ⟨"stat-src", srcName, dstName, statRes⟩)
    | none => copyLoop kernel srcName dstName (size.toNat + 1) size

/-- Mirrors `CopyFile` of copyfile.go up to its error plumbing.  The
oracles stand for the filesystem: `statDst` is the result of the
`Stat(dst)` pre-check (`some` = dst exists, so `err == nil` in Go),
then the `os.Open(src)`, `NewSafeFile`, `copyFile` and `Close` steps.
Returns the error value `CopyFile` returns (`none` = success). -/
def CopyFile (src dst : String) (statDst : Option Info) (openSrcErr : Option GoErr)
    (sfErr : Option GoErr) (copyRes : Option CopyError) (closeErr : Option GoErr) :
    Option CopyError :=
  match statDst with
  | some _ => some ⟨"stat-dst", src, dst, none⟩
  | none =>
    match openSrcErr with
    | some e => some ⟨"open-src", src, dst, some e⟩
    | none =>
      match sfErr with
      | some e => some ⟨"safefile", src, dst, some e⟩
      | none =>
        match copyRes with
        | some ce => some ce
        | none =>
          match closeErr with
          | some e => some ⟨"close", src, dst, some e⟩
          | none => none

/-- Go `io/fs.FileMode` bit `ModeDir` (1 << 31). -/
def ModeDir : Nat := 2 ^ 31

/-- Go `io/fs.FileMode` bit `ModeSymlink` (1 << 27). -/
def ModeSymlink : Nat := 2 ^ 27

/-- Go `io/fs.FileMode` bit `ModeDevice` (1 << 26). -/
def ModeDevice : Nat := 2 ^ 26

/-- Go `io/fs.FileMode` bit `ModeNamedPipe` (1 << 25). -/
def ModeNamedPipe : Nat := 2 ^ 25

/-- Go `io/fs.FileMode` bit `ModeSocket` (1 << 24). -/
def ModeSocket : Nat := 2 ^ 24

/-- Go `io/fs.FileMode` bit `ModeCharDevice` (1 << 21). -/
def ModeCharDevice : Nat := 2 ^ 21

/-- Go `io/fs.FileMode` bit `ModeIrregular` (1 << 19). -/
def ModeIrregular : Nat := 2 ^ 19

/-- Go `io/fs.ModePerm` (0o777). -/
def ModePerm : Nat := 511

/-- Go `io/fs.ModeType`: the union of all type bits (the bits are
disjoint, so their sum is their bitwise or). -/
def ModeType : Nat :=
  ModeDir + ModeSymlink + ModeNamedPipe + ModeSocket + ModeDevice +
  ModeCharDevice + ModeIrregular

/-- The Go complement `^fs.ModePerm` within uint32, as used by the
differencer's type comparison `lhs.Mod & ^fs.ModePerm`. -/
def notModePerm : Nat := 2 ^ 32 - 1 - ModePerm

/-- The fields of a `fio.Info` that the walker, differencer and cloner
consult: `Name()`, the mode bits, `Size()`, and the identity fields. -/
structure FI where
  name : String
  mod : Nat
  siz : Int
  uid : Nat
  gid : Nat
  dev : Nat
  rdev : Nat
  ino : Nat
  nlink : Nat
deriving DecidableEq

/-- Go `FileMode.IsDir()`: `m & ModeDir != 0`. -/
def FI.IsDir (fi : FI) : Bool := fi.mod &&& ModeDir != 0

/-- Go `FileMode.IsRegular()`: `m & ModeType == 0`. -/
def FI.IsRegular (fi : FI) : Bool := fi.mod &&& ModeType == 0

/-- The type comparison of the differencer:
`lhs.Mod & ^fs.ModePerm` (everything but the permission bits). -/
def typeNibble (m : Nat) : Nat := m &&& notModePerm

namespace Clone

/-- The `cmp.Difference` record as the cloner consumes it (clone/tree.go
and the cmp package): the classification maps keyed by relative path,
plus the two roots.  The concurrent maps are modelled as association
lists in iteration order. -/
structure Difference where
  srcRoot : String
  dstRoot : String
  leftDirs : List (String × FI)
  leftFiles : List (String × FI)
  rightDirs : List (String × FI)
  rightFiles : List (String × FI)
  commonDirs : List (String × FI × FI)
  commonFiles : List (String × FI × FI)
  diffPairs : List (String × FI × FI)
  funny : List (String × FI × FI)
deriving DecidableEq

/-- Mirrors `FunnyEntry` of clone/errors.go. -/
structure FunnyEntry where
  name : String
  src : FI
  dst : FI
deriving DecidableEq

/-- Mirrors `newFunnyError` of clone/tree.go: collect every entry of
the Funny map into a `FunnyError`. -/
def newFunnyError (m : List (String × FI × FI)) : List FunnyEntry :=
  m.map (fun e => ⟨e.1, e.2.1, e.2.2⟩)

/-- The operations the cloner submits to its work pools (`copyOp`,
`delOp`, `linkOp`, `mdOp` of clone/tree.go, with `mkdirOp` for the
stage-1 directory-creation submissions). -/
inductive CloneOp where
  | mkdirOp (dst src : String)
  | copyOp (dst src : String)
  | delOp (nm : String)
  | linkOp (dst src : String)
  | mdOp (dst src : String)
deriving DecidableEq

/-- The hardlink tracker of clone/hardlink.go: `m` maps a source
`(dev, rdev, ino)` key to the first destination path, `links` maps each
later destination to that original. -/
structure Hardlinker where
  m : List ((Nat × Nat × Nat) × String)
  links : List (String × String)
deriving DecidableEq

/-- Mirrors `key` of clone/hardlink.go (the `"%d:%d:%d"` string key). -/
def hlKey (fi : FI) : Nat × Nat × Nat := (fi.dev, fi.rdev, fi.ino)

/-- Mirrors `hardlinker.track`: sources with `Nlink == 1` or that are
not regular files are never tracked; the first encounter of a key
records `key -> dst` and is copied normally (returns false); later
encounters record `dst -> orig` and are deferred (returns true). -/
def hlTrack (h : Hardlinker) (src : FI) (dst : String) : Bool × Hardlinker :=
  if src.nlink = 1 ∨ src.IsRegular = false then (false, h)
  else
    match h.m.find? (fun kv => kv.1 == hlKey src) with
    | some kv => (true, { h with links := h.links ++ [(dst, kv.2)] })
    | none => (false, { h with m := h.m ++ [(hlKey src, dst)] })

/-- Models `filepath.Join(a, b)` on the already-clean paths the cloner
builds. -/
def pathJoin (a b : String) : String := a ++ "/" ++ b

/-- Models `filepath.Dir` for the touched-parent tracking (`track` in
`dowork`). -/
def dirname (p : String) : String :=
  String.intercalate "/" ((p.splitOn "/").dropLast)

/-- Models `filepath.Rel(root, p)` for the paths the cloner itself
built with `pathJoin root nm`. -/
def relOf (root p : String) : String :=
  if p = root then "." else p.drop (root.length + 1)

def insortStr (s : String) : List String → List String
  | [] => [s]
  | t :: rest => if t < s then t :: insortStr s rest else s :: t :: rest

/-- Models `slices.Sort` (ascending lexicographic) as an insertion
sort. -/
def sortStrAsc (l : List String) : List String := l.foldr insortStr []

/-- The fixup stage sorts descending (deepest first). -/
def sortStrDesc (l : List String) : List String := (sortStrAsc l).reverse

/-- Mirrors `dirlist` of clone/tree.go: the keys of the map, sorted
ascending so parents precede children. -/
def dirlist (m : List (String × FI)) : List String := sortStrAsc (m.map Prod.fst)

/-- First-occurrence deduplication, modelling the merge of the sharded
touched-dirs sets into one map. -/
def dedupAux (seen : List String) : List String → List String
  | [] => []
  | s :: rest =>
    if seen.contains s then dedupAux seen rest
    else s :: dedupAux (seen ++ [s]) rest

/-- The operations `dircloner.clone` (clone/tree.go, the staged version
with a hardlinker) submits, serialized in submission order: stage 1
creates the left-only directories (sorted ascending); stage 2 submits
deletes for right-only files then right-only dirs, and copies for Diff
pairs then left-only files, with hardlink coalescing deferring repeat
links; stage 3 issues the deferred links; stage 4 re-applies metadata
to the touched directories, deepest first, skipping the root.  The
worker pools execute a stage's submissions in arbitrary order; the
stages themselves are strictly sequential in the source, which the
single list preserves. -/
def cloneOps (d : Difference) : List CloneOp :=
  let dirs := dirlist d.leftDirs
  let stage1 := dirs.map (fun nm =>
    CloneOp.mkdirOp (pathJoin d.dstRoot nm) (pathJoin d.srcRoot nm))
  let dels := (d.rightFiles ++ d.rightDirs).map (fun e => CloneOp.delOp e.2.name)
  let step := fun (st : List CloneOp × Hardlinker) (src dst : String) (fi : FI) =>
    let tr := hlTrack st.2 fi dst
    (if tr.1 then st.1 else st.1 ++ [CloneOp.copyOp dst src], tr.2)
  let st1 := d.diffPairs.foldl
    (fun st e => step st e.2.1.name e.2.2.name e.2.1) ([], ⟨[], []⟩)
  let st2 := d.leftFiles.foldl
    (fun st e => step st (pathJoin d.srcRoot e.1) (pathJoin d.dstRoot e.1) e.2) st1
  let links := st2.2.links.map (fun p => CloneOp.linkOp p.1 p.2)
  let touched1 := dirs.map (fun nm => pathJoin d.dstRoot nm)
  let targets := (st2.1.map (fun op => match op with
      | CloneOp.copyOp dst _ => dst
      | CloneOp.delOp nm => nm
      | CloneOp.linkOp dst _ => dst
      | CloneOp.mkdirOp dst _ => dst
      | CloneOp.mdOp dst _ => dst)) ++
    (dels.map (fun op => match op with
      | CloneOp.delOp nm => nm
      | _ => "")) ++
    (links.map (fun op => match op with
      | CloneOp.linkOp dst _ => dst
      | _ => ""))
  let touched := dedupAux [] (touched1 ++ targets.map dirname)
  let stage4 := (sortStrDesc touched).filterMap (fun p =>
    let nm := relOf d.dstRoot p
    if nm = "." then none
    else some (CloneOp.mdOp p (pathJoin d.srcRoot nm)))
  stage1 ++ dels ++ st2.1 ++ links ++ stage4

/-- Mirrors the error value of clone/tree.go's funny refusal:
`&Error{"clone", src, dst, newFunnyError(diff.Funny)}`. -/
structure CloneErr where
  op : String
  src : String
  dst : String
  funny : List FunnyEntry
deriving DecidableEq

/-- Mirrors `Tree` of clone/tree.go from the point where the
`Difference` has been computed: if the Funny map is non-empty, return
the aggregated funny-entries error and submit nothing; otherwise run
the cloner and submit its staged operations. -/
def Tree (d : Difference) : Option CloneErr × List CloneOp :=
  if 0 < d.funny.length then
    (some ⟨"clone", d.srcRoot, d.dstRoot, newFunnyError d.funny⟩, [])
  else
    (none, cloneOps d)

end Clone

namespace Walk

/-- The walker state and options that `walkPath` consults for one
directory entry (walk.go), with the filesystem and caller callbacks as
oracles: `filterName` is the basename-glob exclusion (`d.exclude` when
`Excludes` is set), `lstat` is `fio.Lstatm` (`none` = error sent to the
error channel), `seen` is `isEntrySeen` (false immediately when
`IgnoreDuplicateInode` is off), `filter` is the caller filter (`none` =
error), `singlefs` is the mount-point containment check, `evalSymlink`
is `filepath.EvalSymlinks` and `statm` the follow-up `fio.Statm`.
`typ` is the precomputed output mask `d.typ` and `typeHasFILE` is
`(d.Type & FILE) > 0`. -/
structure WalkCtx where
  filterName : String → Bool
  lstat : String → Option FI
  seen : FI → Bool
  filter : FI → Option Bool
  singlefs : FI → Bool
  followSymlinks : Bool
  evalSymlink : String → Option String
  statm : String → Option FI
  typ : Nat
  typeHasFILE : Bool

/-- Observable actions of the walker on one entry, in execution order:
the `Lstatm` call, the duplicate-inode check, the caller-filter call,
and an emission to the output channel. -/
inductive WEvent where
  | lstatCall (nm : String)
  | dupCheck
  | filterCall
  | emit (fi : FI)
deriving DecidableEq

/-- The output gate of `walkState.output`:
`(d.typ & m) > 0 || ((d.Type & FILE) > 0 && m.IsRegular())`. -/
def outputGate (d : WalkCtx) (fi : FI) : Bool :=
  (d.typ &&& fi.mod != 0) || (d.typeHasFILE && fi.IsRegular)

/-- Mirrors `walkState.output`: apply the entry iff it passes the
type-mask gate. -/
def output (d : WalkCtx) (fi : FI) : List WEvent :=
  if outputGate d fi then [.emit fi] else []

/-- Mirrors `walkState.doSymlink`: without `FollowSymlinks` the symlink
itself goes through `output`; otherwise resolve it, stat the target,
and (unless already seen) either enqueue a directory target that stays
on the same filesystem or output the target.  Returns the events and
the directories to enqueue.  Resolution and stat errors are reported to
the error channel and produce nothing. -/
def doSymlink (d : WalkCtx) (fi : FI) : List WEvent × List String :=
  if d.followSymlinks = false then (output d fi, [])
  else
    match d.evalSymlink fi.name with
    | none => ([], [])
    | some newnm =>
      match d.statm newnm with
      | none => ([], [])
      | some fi2 =>
        if d.seen fi2 then ([], [])
        else if fi2.IsDir then (if d.singlefs fi2 then ([], [newnm]) else ([], []))
        else (output d fi2, [])

/-- One iteration of the entry loop of `walkState.walkPath` (walk.go),
for the joined child path `fp`: basename-glob exclusion first, then
`Lstatm`, then the duplicate-inode check, then the caller filter, then
the type dispatch (directories are enqueued if on the same filesystem,
symlinks go through `doSymlink`, everything else through `output`).
Returns the recorded events and the directories to enqueue. -/
def walkPathEntry (d : WalkCtx) (fp : String) : List WEvent × List String :=
  if d.filterName fp then ([], [])
  else
    match d.lstat fp with
    | none => ([.lstatCall fp], [])
    | some fi =>
      if d.seen fi then ([.lstatCall fp, .dupCheck], [])
      else
        match d.filter fi with
        | none => ([.lstatCall fp, .dupCheck, .filterCall], [])
        | some true => ([.lstatCall fp, .dupCheck, .filterCall], [])
        | some false =>
          if fi.IsDir then
            ([.lstatCall fp, .dupCheck, .filterCall],
              if d.singlefs fi then [fp] else [])
          else if fi.mod &&& ModeSymlink != 0 then
            let r := doSymlink d fi
            ([.lstatCall fp, .dupCheck, .filterCall] ++ r.1, r.2)
          else
            ([.lstatCall fp, .dupCheck, .filterCall] ++ output d fi, [])

/-- The entry loop of `walkPath` over a directory's names, in readdir
order. -/
def walkPathEntries (d : WalkCtx) (names : List String) : List WEvent × List String :=
  names.foldl (fun acc fp =>
    let r := walkPathEntry d fp
    (acc.1 ++ r.1, acc.2 ++ r.2)) ([], [])

end Walk

namespace Cmp

/-- The classification maps the cmp engine fills in (cmp/engine.go),
plus the `done` set, modelled as association lists in store order. -/
structure DiffAcc where
  lhsDir : List (String × FI)
  lhsFile : List (String × FI)
  rhsDir : List (String × FI)
  rhsFile : List (String × FI)
  commonDir : List (String × FI × FI)
  commonFile : List (String × FI × FI)
  diff : List (String × FI × FI)
  funny : List (String × FI × FI)
  done : List String
deriving DecidableEq

def emptyAcc : DiffAcc := ⟨[], [], [], [], [], [], [], [], []⟩

/-- Association-list lookup, modelling `Map.Load`. -/
def alookup : List (String × FI) → String → Option FI
  | [], _ => none
  | (k, v) :: rest, nm => if k = nm then some v else alookup rest nm

/-- Mirrors `cmp.lhsDiff` (cmp/engine.go) for one left entry: a name
absent on the right is a left-only dir or file; a present name with a
different type nibble is funny; otherwise the name is marked done, and
a regular file with a size difference, or any entry failing the
attribute comparator, is a diff; the rest are common dirs or files. -/
def lhsDiff (rhs : List (String × FI)) (fileEq : FI → FI → Bool)
    (acc : DiffAcc) (nm : String) (lhs : FI) : DiffAcc :=
  match alookup rhs nm with
  | none =>
    if lhs.IsDir then { acc with lhsDir := acc.lhsDir ++ [(nm, lhs)] }
    else { acc with lhsFile := acc.lhsFile ++ [(nm, lhs)] }
  | some rhsv =>
    if typeNibble lhs.mod ≠ typeNibble rhsv.mod then
      { acc with funny := acc.funny ++ [(nm, lhs, rhsv)] }
    else
      let acc1 := { acc with done := acc.done ++ [nm] }
      if lhs.IsRegular = true ∧ lhs.siz ≠ rhsv.siz then
        { acc1 with diff := acc1.diff ++ [(nm, lhs, rhsv)] }
      else if fileEq lhs rhsv = false then
        { acc1 with diff := acc1.diff ++ [(nm, lhs, rhsv)] }
      else if lhs.IsDir then
        { acc1 with commonDir := acc1.commonDir ++ [(nm, lhs, rhsv)] }
      else
        { acc1 with commonFile := acc1.commonFile ++ [(nm, lhs, rhsv)] }

/-- Mirrors `cmp.rhsDiff` for one right entry: names already done or
funny are skipped; the rest are right-only dirs or files. -/
def rhsDiff (acc : DiffAcc) (nm : String) (rhsv : FI) : DiffAcc :=
  if nm ∈ acc.done then acc
  else if nm ∈ acc.funny.map (fun e => e.1) then acc
  else if rhsv.IsDir then { acc with rhsDir := acc.rhsDir ++ [(nm, rhsv)] }
  else { acc with rhsFile := acc.rhsFile ++ [(nm, rhsv)] }

/-- Mirrors `cmp.doDiff`: the left pass over the whole left map runs
to completion (its pool is closed and waited on) before the right pass
starts, so the sequential folds preserve the engine's ordering
guarantee that `done` and `funny` are complete before `rhsDiff` runs. -/
def doDiff (lhs rhs : List (String × FI)) (fileEq : FI → FI → Bool) : DiffAcc :=
  let a1 := lhs.foldl (fun a e => lhsDiff rhs fileEq a e.1 e.2) emptyAcc
  rhs.foldl (fun a e => rhsDiff a e.1 e.2) a1

/-- The eight classifications of a `Difference`. -/
inductive Bucket where
  | leftDir | leftFile | rightDir | rightFile
  | commonDir | commonFile | diffB | funnyB
deriving DecidableEq

/-- The names a finished `DiffAcc` holds in each classification. -/
def bucketKeys (acc : DiffAcc) : Bucket → List String
  | .leftDir => acc.lhsDir.map Prod.fst
  | .leftFile => acc.lhsFile.map Prod.fst
  | .rightDir => acc.rhsDir.map Prod.fst
  | .rightFile => acc.rhsFile.map Prod.fst
  | .commonDir => acc.commonDir.map (fun e => e.1)
  | .commonFile => acc.commonFile.map (fun e => e.1)
  | .diffB => acc.diff.map (fun e => e.1)
  | .funnyB => acc.funny.map (fun e => e.1)

/-- The classification `lhsDiff` gives a left entry, as a function of
the right map. -/
def classifyLeft (rhs : List (String × FI)) (fileEq : FI → FI → Bool)
    (nm : String) (l : FI) : Bucket :=
  match alookup rhs nm with
  | none => if l.IsDir then .leftDir else .leftFile
  | some r =>
    if typeNibble l.mod ≠ typeNibble r.mod then .funnyB
    else if l.IsRegular = true ∧ l.siz ≠ r.siz then .diffB
    else if fileEq l r = false then .diffB
    else if l.IsDir then .commonDir else .commonFile

/-- Whether `lhsDiff` marks a left entry as done: exactly the shared
names whose types agree. -/
def doneMark (rhs : List (String × FI)) (nm : String) (l : FI) : List String :=
  match alookup rhs nm with
  | none => []
  | some r => if typeNibble l.mod ≠ typeNibble r.mod then [] else [nm]

/-- The classification a name receives from the whole two-pass
algorithm, as a pure function of the two maps: names only on the left
(or shared) are classified by the left pass; names only on the right
are right-only dirs or files; absent names get nothing. -/
def classify (lhs rhs : List (String × FI)) (fileEq : FI → FI → Bool)
    (nm : String) : Option Bucket :=
  match alookup lhs nm with
  | some l => some (classifyLeft rhs fileEq nm l)
  | none =>
    match alookup rhs nm with
    | none => none
    | some r => some (if r.IsDir then .rightDir else .rightFile)

/-- The names a list of left entries sends to classification `b`. -/
def leftOut (rhs : List (String × FI)) (fileEq : FI → FI → Bool)
    (L : List (String × FI)) (b : Bucket) : List String :=
  (L.filter (fun e => decide (classifyLeft rhs fileEq e.1 e.2 = b))).map Prod.fst

/-- The done names contributed by a list of left entries, in order. -/
def doneOf (rhs : List (String × FI)) (L : List (String × FI)) : List String :=
  L.foldr (fun e acc => doneMark rhs e.1 e.2 ++ acc) []

/-- The classification the right pass gives a right entry, given the
finished done set and funny keys. -/
def classifyRight (done funnyKeys : List String) (nm : String) (r : FI) :
    Option Bucket :=
  if nm ∈ done then none
  else if nm ∈ funnyKeys then none
  else some (if r.IsDir then .rightDir else .rightFile)

/-- The names a list of right entries sends to classification `b`. -/
def rightOut (done funnyKeys : List String) (R : List (String × FI))
    (b : Bucket) : List String :=
  (R.filter (fun e => decide (classifyRight done funnyKeys e.1 e.2 = some b))).map
    Prod.fst


end Cmp

-- ## Theorems

theorem encBE_length (w n : Nat) : (encBE w n).length = w := by
  induction w generalizing n with
  | zero => rfl
  | succ w ih => simp [encBE, ih]

theorem decBEAux_append (b : List Nat) (r : List Nat) (acc : Nat) :
    decBEAux b.length acc (b ++ r) = some (r, b.foldl (fun a x => a * 256 + x) acc) := by
  induction b generalizing acc with
  | nil => rfl
  | cons x b ih => simpa [decBEAux, List.foldl] using ih (acc * 256 + x)

theorem foldl_encBE (w : Nat) (n acc : Nat) :
    (encBE w n).foldl (fun a x => a * 256 + x) acc = acc * 256 ^ w + n % 256 ^ w := by
  induction w generalizing n acc with
  | zero => simp [encBE, Nat.mod_one]
  | succ w ih =>
    have hsplit : n % 256 ^ (w + 1) = (n / 256 % 256 ^ w) * 256 + n % 256 := by
      have h1 : n % 256 ^ (w + 1) = n % (256 ^ w * 256) := by ring_nf
      have h2 : n % (256 ^ w * 256) = n % 256 + 256 * (n / 256 % 256 ^ w) := by
        rw [Nat.mul_comm (256 ^ w) 256, Nat.mod_mul]
      omega
    calc (encBE (w + 1) n).foldl (fun a x => a * 256 + x) acc
        = ((encBE w (n / 256)).foldl (fun a x => a * 256 + x) acc) * 256 + n % 256 := by
          simp [encBE, List.foldl_append]
      _ = (acc * 256 ^ w + n / 256 % 256 ^ w) * 256 + n % 256 := by rw [ih]
      _ = acc * 256 ^ (w + 1) + n % 256 ^ (w + 1) := by rw [hsplit]; ring

theorem dec32_enc32 (n : Nat) (r : List Nat) :
    dec32 (enc32 n ++ r) = some (r, n % 2 ^ 32) := by
  have h := decBEAux_append (enc32 n) r 0
  rw [enc32, encBE_length] at h
  simpa [dec32, enc32, foldl_encBE] using h

theorem dec64_enc64 (n : Nat) (r : List Nat) :
    dec64 (enc64 n ++ r) = some (r, n % 2 ^ 64) := by
  have h := decBEAux_append (enc64 n) r 0
  rw [enc64, encBE_length] at h
  simpa [dec64, enc64, foldl_encBE] using h

theorem enc32_length (n : Nat) : (enc32 n).length = 4 := encBE_length 4 n

theorem enc64_length (n : Nat) : (enc64 n).length = 8 := encBE_length 8 n

theorem enctime_length (t : GoTime) : (enctime t).length = 8 := enc64_length _

theorem dectime_enctime (t : GoTime) (r : List Nat) :
    dectime (enctime t ++ r) = some (r, timeWire t) := by
  unfold dectime enctime timeWire
  rw [dec64_enc64]
  simp [Nat.mod_mod_of_dvd _ dvd_rfl]

theorem timeWire_eq_self (t : GoTime) (h : t.encodable) : timeWire t = t := by
  obtain ⟨s, ns⟩ := t
  obtain ⟨h0, hn, hlt⟩ := h
  simp only at h0 hn hlt
  unfold timeWire toUint64 int64ofUint64
  have hs64 : s % 2 ^ 64 = s := by omega
  rw [hs64]
  have hnat : s.toNat * 1000000000 + ns < 2 ^ 64 := by omega
  rw [Nat.mod_eq_of_lt hnat]
  have hdiv : (s.toNat * 1000000000 + ns) / 1000000000 = s.toNat := by omega
  have hrem : (s.toNat * 1000000000 + ns) % 1000000000 = ns := by omega
  rw [hdiv, hrem]
  have h63 : s.toNat < 2 ^ 63 := by omega
  rw [if_pos h63]
  simp only [GoTime.mk.injEq]
  exact ⟨Int.toNat_of_nonneg h0, trivial⟩

theorem timeWire_sec_nonneg (t : GoTime) : 0 ≤ (timeWire t).sec := by
  unfold timeWire toUint64 int64ofUint64
  simp only
  have hlt : ((toUint64 t.sec * 1000000000 + t.nsec) % 2 ^ 64) / 1000000000 < 2 ^ 63 := by
    have := Nat.mod_lt (toUint64 t.sec * 1000000000 + t.nsec) (show 0 < 2 ^ 64 by norm_num)
    omega
  unfold toUint64 at hlt
  rw [if_pos hlt]
  positivity

theorem toUint64_lt (i : Int) : toUint64 i < 2 ^ 64 := by
  unfold toUint64
  omega

theorem int64ofUint64_toUint64 (i : Int) (h1 : -(2 ^ 63) ≤ i) (h2 : i < 2 ^ 63) :
    int64ofUint64 (toUint64 i) = i := by
  unfold int64ofUint64 toUint64
  split <;> omega

theorem decstr_encstr (s r : List Nat) (h : s.length < 2 ^ 32) :
    decstr (encstr s ++ r) = .ok (r, s) := by
  unfold decstr encstr
  rw [List.append_assoc, dec32_enc32, Nat.mod_eq_of_lt h]
  have h4 : ¬ ((enc32 s.length ++ (s ++ r)).length < 4) := by
    simp [List.length_append, enc32_length]
  rw [if_neg h4]
  simp only
  rw [if_pos (by simp [List.length_append])]
  rw [List.drop_left, List.take_left]

theorem encxattrPairs_length (x : XattrL) :
    (encxattrPairs x).length = xattrBlob x := by
  induction x with
  | nil => rfl
  | cons kv x ih =>
    simp [encxattrPairs, xattrBlob, List.length_append, enc32_length] at *
    omega

theorem length_le_xattrBlob (x : XattrL) : x.length ≤ xattrBlob x := by
  induction x with
  | nil => simp [xattrBlob]
  | cons kv x ih =>
    simp [xattrBlob] at *
    omega

theorem mem_le_xattrBlob (x : XattrL) (kv : List Nat × List Nat) (h : kv ∈ x) :
    8 + kv.1.length + kv.2.length ≤ xattrBlob x := by
  induction x with
  | nil => cases h
  | cons kv0 x ih =>
    rcases List.mem_cons.mp h with h0 | h0
    · subst h0
      unfold xattrBlob
      simp only [List.map_cons, List.sum_cons]
      omega
    · have h2 := ih h0
      unfold xattrBlob at *
      simp only [List.map_cons, List.sum_cons]
      omega

theorem decxattrLoop_pairs (x : XattrL) (r : List Nat) (fuel : Nat)
    (hfuel : x.length < fuel)
    (hkv : ∀ kv ∈ x, kv.1.length < 2 ^ 32 ∧ kv.2.length < 2 ^ 32) :
    decxattrLoop fuel (xattrBlob x : Int) (encxattrPairs x ++ r) = .ok x := by
  induction x generalizing fuel r with
  | nil =>
    obtain ⟨f, rfl⟩ : ∃ f, fuel = f + 1 := ⟨fuel - 1, by omega⟩
    simp [decxattrLoop, xattrBlob, encxattrPairs]
  | cons kv x ih =>
    obtain ⟨f, rfl⟩ : ∃ f, fuel = f + 1 := ⟨fuel - 1, by omega⟩
    obtain ⟨k, v⟩ := kv
    obtain ⟨hk, hv⟩ := hkv (k, v) (List.mem_cons_self _ _)
    simp only at hk hv
    have h8 : 8 ≤ xattrBlob ((k, v) :: x) := by
      unfold xattrBlob
      simp only [List.map_cons, List.sum_cons]
      omega
    have hz : ¬ ((xattrBlob ((k, v) :: x) : Int) ≤ 0) := by omega
    have hbytes : encxattrPairs ((k, v) :: x) ++ r
        = enc32 k.length ++ (enc32 v.length ++ ((k ++ (v ++ (encxattrPairs x ++ r))))) := by
      simp [encxattrPairs, List.append_assoc]
    unfold decxattrLoop
    rw [hbytes]
    rw [if_neg hz]
    have hlen8 : ¬ ((enc32 k.length ++ (enc32 v.length ++ (k ++ (v ++ (encxattrPairs x ++ r))))).length < 8) := by
      simp only [List.length_append, enc32_length]
      omega
    rw [if_neg hlen8]
    rw [dec32_enc32, Nat.mod_eq_of_lt hk]
    try simp only
    rw [dec32_enc32, Nat.mod_eq_of_lt hv]
    try simp only
    rw [if_neg (by simp only [List.length_append]; omega)]
    try simp only
    rw [List.take_left, List.drop_left]
    rw [if_neg (by simp only [List.length_append]; omega)]
    try simp only
    rw [List.take_left, List.drop_left]
    have hzrec : (xattrBlob ((k, v) :: x) : Int) - 8 - (k.length : Int) - (v.length : Int)
        = (xattrBlob x : Int) := by
      simp [xattrBlob]
      ring
    rw [hzrec]
    rw [ih r f (by simp only [List.length_cons] at hfuel; omega)
      (fun kv hm => hkv kv (List.mem_cons_of_mem _ hm))]

theorem decxattr_encxattr (x : XattrL) (r : List Nat)
    (hb : xattrBlob x < 2 ^ 32)
    (hkv : ∀ kv ∈ x, kv.1.length < 2 ^ 32 ∧ kv.2.length < 2 ^ 32) :
    decxattr (encxattr x ++ r) = .ok (x, r) := by
  unfold decxattr encxattr
  rw [List.append_assoc, dec32_enc32, Nat.mod_eq_of_lt hb]
  rw [if_neg (by simp [List.length_append, enc32_length])]
  simp only
  rw [if_neg (by simp [List.length_append, encxattrPairs_length])]
  have hfuel : x.length < (encxattrPairs x ++ r).length + 1 := by
    have h1 := length_le_xattrBlob x
    have h2 := encxattrPairs_length x
    simp [List.length_append]
    omega
  rw [decxattrLoop_pairs x r _ hfuel hkv]
  have hdrop : (encxattrPairs x ++ r).drop (xattrBlob x) = r := by
    rw [← encxattrPairs_length x, List.drop_left]
  rw [hdrop]

theorem decFixed_enc (ino nlink mo uid gid sizU dev rdev : Nat)
    (t1 t2 t3 : GoTime) (r : List Nat) :
    decFixed (enc64 ino ++ (enc64 nlink ++ (enc32 mo ++ (enc32 uid ++ (enc32 gid ++
      (enc64 sizU ++ (enc64 dev ++ (enc64 rdev ++ (enctime t1 ++ (enctime t2 ++
      (enctime t3 ++ r))))))))))) =
    some (r, ino % 2 ^ 64, nlink % 2 ^ 64, mo % 2 ^ 32, uid % 2 ^ 32, gid % 2 ^ 32,
      sizU % 2 ^ 64, dev % 2 ^ 64, rdev % 2 ^ 64, timeWire t1, timeWire t2, timeWire t3) := by
  unfold decFixed
  rw [dec64_enc64]
  try simp only
  rw [dec64_enc64]
  try simp only
  rw [dec32_enc32]
  try simp only
  rw [dec32_enc32]
  try simp only
  rw [dec32_enc32]
  try simp only
  rw [dec64_enc64]
  try simp only
  rw [dec64_enc64]
  try simp only
  rw [dec64_enc64]
  try simp only
  rw [dectime_enctime]
  try simp only
  rw [dectime_enctime]
  try simp only
  rw [dectime_enctime]

theorem marshalContent_length (ii : Info) :
    (marshalContent ii).length + 12 = ii.MarshalSize := by
  unfold marshalContent Info.MarshalSize xattrlen encstr encxattr
  simp only [List.length_append, enc32_length, enc64_length, enctime_length,
    encxattrPairs_length, xattrBlob]
  omega

theorem marshal_eq (ii : Info) :
    ii.Marshal = marshalContent ii ++ List.replicate 16 0 := by
  have h := marshalContent_length ii
  have h16 : ii.MarshalSize + 4 - (marshalContent ii).length = 16 := by omega
  unfold Info.Marshal
  rw [h16]

theorem marshal_length (ii : Info) : ii.Marshal.length = ii.MarshalSize + 4 := by
  rw [marshal_eq]
  have h := marshalContent_length ii
  simp only [List.length_append, List.length_replicate]
  omega

theorem nam_le_marshalSize (ii : Info) : ii.nam.length ≤ ii.MarshalSize := by
  unfold Info.MarshalSize
  omega

theorem blob_le_marshalSize (ii : Info) : xattrBlob ii.xattr ≤ ii.MarshalSize := by
  unfold Info.MarshalSize xattrlen xattrBlob
  omega

theorem marshalSize_ge (ii : Info) : 100 ≤ ii.MarshalSize := by
  unfold Info.MarshalSize xattrlen
  omega

/-- C1 (amended).  For every Info `x` whose fields are within their Go
types' ranges and whose timestamps lie in `[epoch, epoch + 2^64 ns)`:
`Marshal` returns a buffer of `MarshalSize() + 4` bytes (not
`MarshalSize()`: `Marshal` allocates `MarshalSize()+4` and `MarshalSize`
counts 12 bytes per time field while `enctime` writes 8, so the encoded
content occupies `MarshalSize() - 12` bytes, zero padded), and
`Unmarshal` of that buffer succeeds and restores every field — name,
ino/dev/rdev/uid/gid/nlink, size, mode, times to the nanosecond, and
the xattr map — consuming `MarshalSize()` bytes. -/
theorem c1_marshal_roundtrip (ii : Info)
    (hms : ii.MarshalSize < 2 ^ 32)
    (hino : ii.ino < 2 ^ 64) (hnlink : ii.nlink < 2 ^ 64)
    (hdev : ii.dev < 2 ^ 64) (hrdev : ii.rdev < 2 ^ 64)
    (hmod : ii.mod < 2 ^ 32) (huid : ii.uid < 2 ^ 32) (hgid : ii.gid < 2 ^ 32)
    (hsiz1 : -(2 ^ 63) ≤ ii.siz) (hsiz2 : ii.siz < 2 ^ 63)
    (hat : ii.atim.encodable) (hmt : ii.mtim.encodable) (hct : ii.ctim.encodable) :
    ii.Marshal.length = ii.MarshalSize + 4 ∧
    Info.Unmarshal ii.Marshal = .ok (ii, ii.MarshalSize) := by
  refine ⟨marshal_length ii, ?_⟩
  have hnam : ii.nam.length < 2 ^ 32 := lt_of_le_of_lt (nam_le_marshalSize ii) hms
  have hblob : xattrBlob ii.xattr < 2 ^ 32 := lt_of_le_of_lt (blob_le_marshalSize ii) hms
  have hkv : ∀ kv ∈ ii.xattr, kv.1.length < 2 ^ 32 ∧ kv.2.length < 2 ^ 32 := by
    intro kv hm
    have := mem_le_xattrBlob ii.xattr kv hm
    omega
  have hge := marshalSize_ge ii
  rw [marshal_eq]
  unfold marshalContent
  simp only [List.append_assoc]
  unfold Info.Unmarshal
  rw [if_neg (by simp only [List.length_append, enc32_length]; omega)]
  rw [dec32_enc32, Nat.mod_eq_of_lt (show ii.MarshalSize - 4 < 2 ^ 32 by omega)]
  try simp only
  have hrest : (enc64 ii.ino ++ (enc64 ii.nlink ++ (enc32 ii.mod ++ (enc32 ii.uid ++
      (enc32 ii.gid ++ (enc64 (toUint64 ii.siz) ++ (enc64 ii.dev ++ (enc64 ii.rdev ++
      (enctime ii.atim ++ (enctime ii.mtim ++ (enctime ii.ctim ++ (encstr ii.nam ++
      (encxattr ii.xattr ++ List.replicate 16 0))))))))))))).length = ii.MarshalSize := by
    unfold encstr encxattr
    simp only [List.length_append, enc32_length, enc64_length, enctime_length,
      encxattrPairs_length, List.length_replicate]
    have h := marshalContent_length ii
    unfold marshalContent encstr encxattr at h
    simp only [List.length_append, enc32_length, enc64_length, enctime_length,
      encxattrPairs_length] at h
    omega
  rw [if_neg (by rw [hrest]; omega)]
  rw [decFixed_enc]
  rw [Nat.mod_eq_of_lt hino, Nat.mod_eq_of_lt hnlink, Nat.mod_eq_of_lt hmod,
    Nat.mod_eq_of_lt huid, Nat.mod_eq_of_lt hgid,
    Nat.mod_eq_of_lt (toUint64_lt ii.siz), Nat.mod_eq_of_lt hdev, Nat.mod_eq_of_lt hrdev,
    timeWire_eq_self _ hat, timeWire_eq_self _ hmt, timeWire_eq_self _ hct]
  try simp only
  rw [decstr_encstr _ _ hnam]
  try simp only
  rw [decxattr_encxattr _ _ hblob hkv]
  try simp only
  rw [int64ofUint64_toUint64 _ hsiz1 hsiz2]
  have hms4 : ii.MarshalSize - 4 + 4 = ii.MarshalSize := by omega
  rw [hms4]

/-- Witness for C1: the amended round-trip evaluated at a concrete Info
with a name, one xattr pair and nonzero fields. -/
theorem c1_marshal_roundtrip_witness :
    (Info.Marshal ⟨1, 5, 2, 3, 420, 6, 7, 9, ⟨1, 2⟩, ⟨3, 4⟩, ⟨5, 6⟩,
        [97], [([107], [118])]⟩).length
      = (Info.MarshalSize ⟨1, 5, 2, 3, 420, 6, 7, 9, ⟨1, 2⟩, ⟨3, 4⟩, ⟨5, 6⟩,
        [97], [([107], [118])]⟩) + 4 ∧
    Info.Unmarshal (Info.Marshal ⟨1, 5, 2, 3, 420, 6, 7, 9, ⟨1, 2⟩, ⟨3, 4⟩, ⟨5, 6⟩,
        [97], [([107], [118])]⟩)
      = .ok (⟨1, 5, 2, 3, 420, 6, 7, 9, ⟨1, 2⟩, ⟨3, 4⟩, ⟨5, 6⟩, [97], [([107], [118])]⟩,
        Info.MarshalSize ⟨1, 5, 2, 3, 420, 6, 7, 9, ⟨1, 2⟩, ⟨3, 4⟩, ⟨5, 6⟩,
        [97], [([107], [118])]⟩) :=
  c1_marshal_roundtrip _ (by decide) (by decide) (by decide) (by decide) (by decide)
    (by decide) (by decide) (by decide) (by decide) (by decide)
    (by decide) (by decide) (by decide)

set_option maxRecDepth 4000 in
/-- Counterexample for C1 as stated: at a concrete Info (all-zero
fields, empty name and xattr, mtime one second before the epoch) the
marshalled buffer is 104 bytes long while `MarshalSize()` is 100, and
unmarshalling it yields an mtime of about year 2554 instead of the
original -1s — so neither the length clause nor the unconditional
field-equality clause of the claim holds. -/
theorem c1_counterexample :
    (Info.Marshal ⟨0, 0, 0, 0, 0, 0, 0, 0, ⟨0, 0⟩, ⟨-1, 0⟩, ⟨0, 0⟩, [], []⟩).length = 104 ∧
    Info.MarshalSize ⟨0, 0, 0, 0, 0, 0, 0, 0, ⟨0, 0⟩, ⟨-1, 0⟩, ⟨0, 0⟩, [], []⟩ = 100 ∧
    Info.Unmarshal (Info.Marshal ⟨0, 0, 0, 0, 0, 0, 0, 0, ⟨0, 0⟩, ⟨-1, 0⟩, ⟨0, 0⟩, [], []⟩)
      = .ok (⟨0, 0, 0, 0, 0, 0, 0, 0, ⟨0, 0⟩, ⟨18446744072, 709551616⟩, ⟨0, 0⟩, [], []⟩, 100) ∧
    (⟨18446744072, 709551616⟩ : GoTime) ≠ ⟨-1, 0⟩ := by
  refine ⟨by decide, by decide, by decide, by decide⟩

/-- C8: `Unmarshal` is not total.  On the 4-byte buffer `00 00 00 00`
(a length prefix of 0 and nothing else) the `len(b) < z` check passes
with `z = 0`, and the first `dec64` slices 8 bytes out of an empty
buffer — a runtime panic, not a returned codec error.  (The sibling
`Unmarshal` in the older half of info_marshal.go guards this with a
`z < _FixedEncodingSize` check; the cited version dropped it.) -/
theorem c8_unmarshal_panics_on_zero_prefix :
    Info.Unmarshal [0, 0, 0, 0] = DRes.panics := by decide

/-- C10 (amended).  The timestamp codec round-trips exactly those times
in `[epoch, epoch + 2^64 ns)` — about 584 years — and every pre-epoch
time is corrupted: its unsigned encoding wraps, so decoding yields a
non-negative number of seconds and can never equal the original. -/
theorem c10_time_roundtrip (t : GoTime) :
    (t.encodable → dectime (enctime t) = some ([], t)) ∧
    (t.sec < 0 → dectime (enctime t) ≠ some ([], t)) := by
  have hbase : dectime (enctime t) = some ([], timeWire t) := by
    rw [← List.append_nil (enctime t)]
    exact dectime_enctime t []
  constructor
  · intro h
    rw [hbase, timeWire_eq_self t h]
  · intro hneg heq
    rw [hbase] at heq
    have h2 : timeWire t = t := by
      simpa using heq
    have h3 := timeWire_sec_nonneg t
    rw [h2] at h3
    omega

/-- Witness for C10: the round-trip at one second after the epoch, and
the failed round-trip at one second before it. -/
theorem c10_time_roundtrip_witness :
    dectime (enctime ⟨1, 500⟩) = some ([], ⟨1, 500⟩) ∧
    dectime (enctime ⟨-1, 0⟩) ≠ some ([], ⟨-1, 0⟩) :=
  ⟨(c10_time_roundtrip ⟨1, 500⟩).1 (by decide),
   (c10_time_roundtrip ⟨-1, 0⟩).2 (by decide)⟩

/-- Counterexample for C10 as stated: the claim asserts the round-trip
for every time at or after the epoch, but `2^35` seconds (~year 3058)
exceeds the 2^64-nanosecond window: the encoding wraps and decodes to
a different instant. -/
theorem c10_counterexample :
    (0 : Int) ≤ 2 ^ 35 ∧
    dectime (enctime ⟨2 ^ 35, 0⟩) = some ([], ⟨15912994294, 290448384⟩) ∧
    (⟨15912994294, 290448384⟩ : GoTime) ≠ ⟨2 ^ 35, 0⟩ := by
  refine ⟨by decide, by decide, by decide⟩

/-- C3: `Xattr.Equal` is not "same key set and identical values".  At
`x = {}` and `y = {"a": "b"}` it returns true even though `y` has a key
absent from `x` (third conjunct), and swapping the arguments returns
false, so it is not symmetric either: the second loop of the source
ranges over `x` (its loop variable shadows the parameter `y`), so keys
only present in `y` are never examined. -/
theorem c3_xattr_equal_subset_only :
    Xattr.Equal [] [([97], [98])] = true ∧
    Xattr.Equal [([97], [98])] [] = false ∧
    xattrLookup [] [97] = none := by
  refine ⟨by decide, by decide, by decide⟩

/-- C4 (amended).  For a `SafeFile` in state Open with no sticky write
error, when fsync, close and rename all succeed, `Close()` transitions
the state Open to Closed, removes the scratch name by renaming it onto
the target, and returns nil.  If any of the three steps fails,
`Close()` records that error as the sticky error and returns it,
leaving the state Open and the scratch file in place; the cleanup is
performed by a subsequent `Abort()` (the usage documented in the
source: `defer sf.Abort()`), which removes the scratch file and moves
the state to Aborted. -/
theorem c4_safefile_close (sf : SFState) (e : GoErr)
    (syncRes closeRes renameRes : Option GoErr)
    (hopen : sf.closedState = 0) (herr : sf.err = none) :
    (syncRes = none → closeRes = none → renameRes = none →
      SafeFile.Close sf syncRes closeRes renameRes
        = (none, { sf with closedState := 1, scratch := false, renamed := true })) ∧
    ((syncRes = some e ∨ (syncRes = none ∧ closeRes = some e) ∨
        (syncRes = none ∧ closeRes = none ∧ renameRes = some e)) →
      SafeFile.Close sf syncRes closeRes renameRes = (some e, { sf with err := some e }) ∧
      ({ sf with err := some e } : SFState).closedState = 0 ∧
      ({ sf with err := some e } : SFState).scratch = sf.scratch ∧
      SafeFile.Abort { sf with err := some e }
        = { sf with err := some e, scratch := false, closedState := -1 }) := by
  constructor
  · intro h1 h2 h3
    subst h1; subst h2; subst h3
    unfold SafeFile.Close
    rw [herr]
    simp [hopen]
  · intro hcase
    rcases hcase with h1 | ⟨h1, h2⟩ | ⟨h1, h2, h3⟩
    · subst h1
      unfold SafeFile.Close SafeFile.Abort
      rw [herr]
      simp [hopen]
    · subst h1; subst h2
      unfold SafeFile.Close SafeFile.Abort
      rw [herr]
      simp [hopen]
    · subst h1; subst h2; subst h3
      unfold SafeFile.Close SafeFile.Abort
      rw [herr]
      simp [hopen]

/-- Witness for C4: the amended behaviour at a concrete open handle,
for the success path and for a failing fsync. -/
theorem c4_safefile_close_witness :
    SafeFile.Close ⟨none, 0, true, false⟩ none none none
      = (none, ⟨none, 1, false, true⟩) ∧
    SafeFile.Close ⟨none, 0, true, false⟩ (some "fsync failed") none none
      = (some "fsync failed", ⟨some "fsync failed", 0, true, false⟩) :=
  ⟨(c4_safefile_close ⟨none, 0, true, false⟩ "fsync failed" none none none
      (by decide) (by decide)).1 rfl rfl rfl,
   ((c4_safefile_close ⟨none, 0, true, false⟩ "fsync failed" (some "fsync failed")
      none none (by decide) (by decide)).2 (Or.inl rfl)).1⟩

/-- Counterexample for C4 as stated: after a failing fsync, `Close`
returns the error but the state is still Open (`closedState = 0`) and
the scratch file still exists — the handle was not aborted within
`Close` and the scratch file does linger until the deferred `Abort`
runs. -/
theorem c4_counterexample :
    SafeFile.Close ⟨none, 0, true, false⟩ (some "fsync failed") none none
      = (some "fsync failed", ⟨some "fsync failed", 0, true, false⟩) ∧
    (⟨some "fsync failed", 0, true, false⟩ : SFState).scratch = true ∧
    (⟨some "fsync failed", 0, true, false⟩ : SFState).closedState = 0 := by
  refine ⟨by decide, by decide, by decide⟩

/-- C5 (amended).  In the `copy_file_range` fallback of `sys_copyFile`,
every chunk requested from the kernel is no larger than `_ioChunkSize`
= 1024 * 1048576 bytes (1 GiB — not 256 KiB), and a transfer that
makes zero-byte progress fails immediately with the "zero sized
transfer" error instead of looping. -/
theorem c5_range_copy_chunks (kernel : Nat → Option Nat) (srcName dstName : String)
    (fuel : Nat) (sz : Int) :
    (∀ n ∈ (copyLoop kernel srcName dstName fuel sz).1, n ≤ _ioChunkSize) ∧
    (0 < fuel → 0 < sz → kernel (chunkReq sz) = some 0 →
      (copyLoop kernel srcName dstName fuel sz).2
        = some ⟨"copy_file_range", srcName, dstName, some "zero sized transfer"⟩) := by
  have hchunk : ∀ s : Int, chunkReq s ≤ _ioChunkSize := fun s => min_le_left _ _
  constructor
  · induction fuel generalizing sz with
    | zero => simp [copyLoop]
    | succ f ih =>
      intro n hn
      unfold copyLoop at hn
      by_cases hsz : 0 < sz
      · rw [if_pos hsz] at hn
        rcases hk : kernel (chunkReq sz) with _ | m
        · rw [hk] at hn
          simp at hn
          subst hn
          exact hchunk sz
        · rw [hk] at hn
          by_cases hm : m = 0
          · simp [hm] at hn
            subst hn
            exact hchunk sz
          · simp [hm] at hn
            rcases hn with hn | hn
            · subst hn
              exact hchunk sz
            · exact ih _ _ hn
      · rw [if_neg hsz] at hn
        simp at hn
  · intro hf hsz hk
    obtain ⟨f, rfl⟩ : ∃ f, fuel = f + 1 := ⟨fuel - 1, by omega⟩
    unfold copyLoop
    rw [if_pos hsz, hk]
    simp

/-- Witness for C5: the amended statement at a concrete 5-byte copy
whose kernel oracle reports zero-byte progress. -/
theorem c5_range_copy_chunks_witness :
    (∀ n ∈ (copyLoop (fun _ => some 0) "s" "d" 6 5).1, n ≤ _ioChunkSize) ∧
    (copyLoop (fun _ => some 0) "s" "d" 6 5).2
      = some ⟨"copy_file_range", "s", "d", some "zero sized transfer"⟩ :=
  ⟨(c5_range_copy_chunks (fun _ => some 0) "s" "d" 6 5).1,
   (c5_range_copy_chunks (fun _ => some 0) "s" "d" 6 5).2
     (by decide) (by decide) (by decide)⟩

/-- Counterexample for C5 as stated: copying a 1 MiB file (with a
kernel that transfers whatever is requested) issues a single chunk
request of 1048576 bytes, which is larger than 256 KiB = 262144 — the
source's `_ioChunkSize` is 1 GiB, not 256 KiB. -/
theorem c5_counterexample :
    (copyLoop (fun n => some n) "s" "d" 2 1048576).1 = [1048576] ∧
    256 * 1024 < 1048576 ∧
    _ioChunkSize = 1073741824 := by
  refine ⟨by decide, by decide, by decide⟩

/-- C9: when the destination of `CopyFile` already exists, the
`Stat(dst)` pre-check succeeds (`err == nil`) and the function returns
`&CopyError{"stat-dst", src, dst, err}` — wrapping that nil error — so
the returned `*CopyError` has `Err = nil` and formatting it with
`Error()` dereferences a nil interface and panics (`errorString`
= none): the refusal to overwrite cannot be safely formatted. -/
theorem c9_copyfile_wraps_nil_error (src dst : String) (fi : Info)
    (o1 o2 : Option GoErr) (o3 : Option CopyError) (o4 : Option GoErr) :
    CopyFile src dst (some fi) o1 o2 o3 o4 = some ⟨"stat-dst", src, dst, none⟩ ∧
    CopyError.errorString ⟨"stat-dst", src, dst, none⟩ = none :=
  ⟨rfl, rfl⟩

/-- C2: if the computed Difference has a non-empty Funny set, `Tree`
returns the aggregated funny-entries error (`&Error{"clone", src, dst,
newFunnyError(diff.Funny)}`) and submits no operation at all: no
directory creation, copy, delete, hardlink, or metadata update. -/
theorem c2_tree_funny_refusal (d : Clone.Difference) (h : d.funny ≠ []) :
    (Clone.Tree d).1
      = some ⟨"clone", d.srcRoot, d.dstRoot, Clone.newFunnyError d.funny⟩ ∧
    (Clone.Tree d).2 = [] := by
  unfold Clone.Tree
  rw [if_pos (List.length_pos.mpr h)]
  exact ⟨rfl, rfl⟩

/-- Witness for C2: the refusal at a concrete Difference whose Funny
map holds one file-vs-directory conflict. -/
theorem c2_tree_funny_refusal_witness :
    (Clone.Tree ⟨"src", "dst", [], [], [], [], [], [], [],
        [("a", ⟨"src/a", 420, 3, 0, 0, 1, 0, 7, 1⟩,
              ⟨"dst/a", 2 ^ 31 + 493, 0, 0, 0, 1, 0, 9, 2⟩)]⟩).1
      = some ⟨"clone", "src", "dst",
          [⟨"a", ⟨"src/a", 420, 3, 0, 0, 1, 0, 7, 1⟩,
               ⟨"dst/a", 2 ^ 31 + 493, 0, 0, 0, 1, 0, 9, 2⟩⟩]⟩ ∧
    (Clone.Tree ⟨"src", "dst", [], [], [], [], [], [], [],
        [("a", ⟨"src/a", 420, 3, 0, 0, 1, 0, 7, 1⟩,
              ⟨"dst/a", 2 ^ 31 + 493, 0, 0, 0, 1, 0, 9, 2⟩)]⟩).2 = [] :=
  c2_tree_funny_refusal _ (by decide)

theorem emit_mem_output (d : Walk.WalkCtx) (g fi : FI)
    (h : Walk.WEvent.emit fi ∈ Walk.output d g) : Walk.outputGate d fi = true := by
  unfold Walk.output at h
  by_cases hg : Walk.outputGate d g = true
  · rw [if_pos hg] at h
    simp at h
    rw [h]
    exact hg
  · rw [if_neg hg] at h
    simp at h

theorem emit_mem_doSymlink (d : Walk.WalkCtx) (g fi : FI)
    (h : Walk.WEvent.emit fi ∈ (Walk.doSymlink d g).1) :
    Walk.outputGate d fi = true := by
  unfold Walk.doSymlink at h
  by_cases hf : d.followSymlinks = false
  · rw [if_pos hf] at h
    exact emit_mem_output d g fi h
  · rw [if_neg hf] at h
    rcases he : d.evalSymlink g.name with _ | nm
    · rw [he] at h
      simp at h
    · rw [he] at h
      simp only [] at h
      rcases hs : d.statm nm with _ | f2
      · rw [hs] at h
        simp at h
      · rw [hs] at h
        simp only [] at h
        by_cases h2 : d.seen f2 = true
        · rw [if_pos h2] at h
          simp at h
        · rw [if_neg h2] at h
          by_cases h3 : f2.IsDir = true
          · rw [if_pos h3] at h
            by_cases h4 : d.singlefs f2 = true
            · rw [if_pos h4] at h
              simp at h
            · rw [if_neg h4] at h
              simp at h
          · rw [if_neg h3] at h
            exact emit_mem_output d f2 fi h

/-- C6: in `walkPath`, the per-entry pipeline runs in the fixed order
basename-glob exclusion, then lstat, then the duplicate-inode check,
then the caller filter, then the type-mask output gate — and an entry
rejected at any step is not subjected to the later steps: a
glob-excluded name is never stat'ed (no events at all), an lstat error
stops before the duplicate check, a duplicate stops before the caller
filter, a filtered entry is never emitted, and anything emitted passed
the type-mask gate. -/
theorem c6_walk_filter_order (d : Walk.WalkCtx) (fp : String) :
    (d.filterName fp = true → Walk.walkPathEntry d fp = ([], [])) ∧
    (d.filterName fp = false → d.lstat fp = none →
      Walk.walkPathEntry d fp = ([Walk.WEvent.lstatCall fp], [])) ∧
    (∀ fi, d.filterName fp = false → d.lstat fp = some fi → d.seen fi = true →
      Walk.walkPathEntry d fp
        = ([Walk.WEvent.lstatCall fp, Walk.WEvent.dupCheck], [])) ∧
    (∀ fi, d.filterName fp = false → d.lstat fp = some fi → d.seen fi = false →
      d.filter fi = some true →
      Walk.walkPathEntry d fp
        = ([Walk.WEvent.lstatCall fp, Walk.WEvent.dupCheck, Walk.WEvent.filterCall], [])) ∧
    (∀ fi, Walk.WEvent.emit fi ∈ (Walk.walkPathEntry d fp).1 →
      Walk.outputGate d fi = true) := by
  refine ⟨?_, ?_, ?_, ?_, ?_⟩
  · intro h1
    unfold Walk.walkPathEntry
    rw [if_pos h1]
  · intro h1 h2
    unfold Walk.walkPathEntry
    rw [if_neg (by simp [h1]), h2]
  · intro fi h1 h2 h3
    unfold Walk.walkPathEntry
    rw [if_neg (by simp [h1]), h2]
    simp [h3]
  · intro fi h1 h2 h3 h4
    unfold Walk.walkPathEntry
    rw [if_neg (by simp [h1]), h2]
    simp [h3, h4]
  · intro fi hmem
    unfold Walk.walkPathEntry at hmem
    by_cases h1 : d.filterName fp = true
    · rw [if_pos h1] at hmem
      simp at hmem
    · rw [if_neg h1] at hmem
      rcases h2 : d.lstat fp with _ | fi0
      · rw [h2] at hmem
        simp at hmem
      · rw [h2] at hmem
        simp only [] at hmem
        by_cases h3 : d.seen fi0 = true
        · rw [if_pos h3] at hmem
          simp at hmem
        · rw [if_neg h3] at hmem
          rcases h4 : d.filter fi0 with _ | b
          · rw [h4] at hmem
            simp at hmem
          · rw [h4] at hmem
            cases b with
            | true =>
              simp at hmem
            | false =>
              simp only [] at hmem
              by_cases h5 : fi0.IsDir = true
              · rw [if_pos h5] at hmem
                simp at hmem
              · rw [if_neg h5] at hmem
                by_cases h6 : fi0.mod &&& ModeSymlink != 0
                · rw [if_pos h6] at hmem
                  simp at hmem
                  exact emit_mem_doSymlink d fi0 fi hmem
                · rw [if_neg h6] at hmem
                  simp only [List.mem_append, List.mem_cons] at hmem
                  rcases hmem with hmem | hmem
                  · simp at hmem
                  · exact emit_mem_output d fi0 fi hmem

/-- Witness for C6: the ordering properties evaluated at a concrete
walker context — a glob-excluded name produces no events at all, a
duplicate inode stops after the stat and duplicate check, and anything
that reaches emission passed the type-mask gate. -/
theorem c6_walk_filter_order_witness :
    Walk.walkPathEntry
      ⟨fun _ => true, fun _ => some ⟨"x", 420, 0, 0, 0, 0, 0, 0, 1⟩, fun _ => true,
        fun _ => some false, fun _ => true, false, fun _ => none, fun _ => none, 0, true⟩
      "x" = ([], []) ∧
    Walk.walkPathEntry
      ⟨fun _ => false, fun _ => some ⟨"x", 420, 0, 0, 0, 0, 0, 0, 1⟩, fun _ => true,
        fun _ => some false, fun _ => true, false, fun _ => none, fun _ => none, 0, true⟩
      "x" = ([Walk.WEvent.lstatCall "x", Walk.WEvent.dupCheck], []) :=
  ⟨(c6_walk_filter_order _ "x").1 rfl,
   (c6_walk_filter_order _ "x").2.2.1 ⟨"x", 420, 0, 0, 0, 0, 0, 0, 1⟩ rfl rfl rfl⟩

namespace Cmp

theorem lhsDiff_bucket (rhs : List (String × FI)) (fileEq : FI → FI → Bool)
    (acc : DiffAcc) (nm : String) (l : FI) (b : Bucket) :
    bucketKeys (lhsDiff rhs fileEq acc nm l) b
      = bucketKeys acc b ++
        (if classifyLeft rhs fileEq nm l = b then [nm] else []) := by
  unfold lhsDiff classifyLeft
  rcases h : alookup rhs nm with _ | r
  all_goals simp only []
  · by_cases hd : l.IsDir = true <;> cases b <;> simp [bucketKeys, hd]
  · by_cases ht : typeNibble l.mod ≠ typeNibble r.mod
    · cases b <;> simp [bucketKeys, ht]
    · by_cases hs : l.IsRegular = true ∧ l.siz ≠ r.siz
      · cases b <;> simp [bucketKeys, ht, hs]
      · by_cases he : fileEq l r = false
        · cases b <;> simp [bucketKeys, ht, hs, he]
        · by_cases hd : l.IsDir = true <;> cases b <;>
            simp [bucketKeys, ht, hs, he, hd]

theorem lhsDiff_done (rhs : List (String × FI)) (fileEq : FI → FI → Bool)
    (acc : DiffAcc) (nm : String) (l : FI) :
    (lhsDiff rhs fileEq acc nm l).done = acc.done ++ doneMark rhs nm l := by
  unfold lhsDiff doneMark
  rcases h : alookup rhs nm with _ | r
  all_goals simp only []
  · by_cases hd : l.IsDir = true <;> simp [hd]
  · by_cases ht : typeNibble l.mod ≠ typeNibble r.mod
    · simp [ht]
    · by_cases hs : l.IsRegular = true ∧ l.siz ≠ r.siz
      · simp [ht, hs]
      · by_cases he : fileEq l r = false
        · simp [ht, hs, he]
        · by_cases hd : l.IsDir = true <;> simp [ht, hs, he, hd]

theorem leftFold_bucket (rhs : List (String × FI)) (fileEq : FI → FI → Bool)
    (L : List (String × FI)) (acc : DiffAcc) (b : Bucket) :
    bucketKeys (L.foldl (fun a e => lhsDiff rhs fileEq a e.1 e.2) acc) b
      = bucketKeys acc b ++ leftOut rhs fileEq L b := by
  induction L generalizing acc with
  | nil => simp [leftOut]
  | cons e L ih =>
    rw [List.foldl_cons, ih]
    rw [lhsDiff_bucket]
    by_cases hc : classifyLeft rhs fileEq e.1 e.2 = b
    · simp [leftOut, List.filter_cons, hc]
    · simp [leftOut, List.filter_cons, hc]

theorem leftFold_done (rhs : List (String × FI)) (fileEq : FI → FI → Bool)
    (L : List (String × FI)) (acc : DiffAcc) :
    (L.foldl (fun a e => lhsDiff rhs fileEq a e.1 e.2) acc).done
      = acc.done ++ doneOf rhs L := by
  induction L generalizing acc with
  | nil => simp [doneOf]
  | cons e L ih =>
    rw [List.foldl_cons, ih, lhsDiff_done]
    simp [doneOf, List.append_assoc]

theorem rhsDiff_bucket (acc : DiffAcc) (nm : String) (r : FI) (b : Bucket) :
    bucketKeys (rhsDiff acc nm r) b
      = bucketKeys acc b ++
        (if classifyRight acc.done (acc.funny.map (fun e => e.1)) nm r = some b
         then [nm] else []) := by
  unfold rhsDiff classifyRight
  by_cases h1 : nm ∈ acc.done
  · rw [if_pos h1, if_pos h1]
    cases b <;> simp [bucketKeys]
  · rw [if_neg h1, if_neg h1]
    by_cases h2 : nm ∈ acc.funny.map (fun e => e.1)
    · rw [if_pos h2, if_pos h2]
      cases b <;> simp [bucketKeys]
    · rw [if_neg h2, if_neg h2]
      by_cases hd : r.IsDir = true
      · rw [if_pos hd, if_pos hd]
        cases b <;> simp [bucketKeys]
      · rw [if_neg hd, if_neg hd]
        cases b <;> simp [bucketKeys]

theorem rhsDiff_keeps (acc : DiffAcc) (nm : String) (r : FI) :
    (rhsDiff acc nm r).done = acc.done ∧ (rhsDiff acc nm r).funny = acc.funny := by
  unfold rhsDiff
  by_cases h1 : nm ∈ acc.done
  · rw [if_pos h1]
    exact ⟨rfl, rfl⟩
  · rw [if_neg h1]
    by_cases h2 : nm ∈ acc.funny.map (fun e => e.1)
    · rw [if_pos h2]
      exact ⟨rfl, rfl⟩
    · rw [if_neg h2]
      by_cases hd : r.IsDir = true
      · rw [if_pos hd]
        exact ⟨rfl, rfl⟩
      · rw [if_neg hd]
        exact ⟨rfl, rfl⟩

theorem rightFold_bucket (R : List (String × FI)) (acc : DiffAcc) (b : Bucket) :
    bucketKeys (R.foldl (fun a e => rhsDiff a e.1 e.2) acc) b
      = bucketKeys acc b ++
        rightOut acc.done (acc.funny.map (fun e => e.1)) R b := by
  induction R generalizing acc with
  | nil => simp [rightOut]
  | cons e R ih =>
    rw [List.foldl_cons, ih, rhsDiff_bucket]
    obtain ⟨hdone, hfunny⟩ := rhsDiff_keeps acc e.1 e.2
    rw [hdone, hfunny]
    by_cases hc : classifyRight acc.done (acc.funny.map (fun x => x.1)) e.1 e.2 = some b
    · simp [rightOut, List.filter_cons, hc]
    · simp [rightOut, List.filter_cons, hc]

theorem mem_keys_of_mem {L : List (String × FI)} {nm : String} {v : FI}
    (h : (nm, v) ∈ L) : nm ∈ L.map Prod.fst :=
  List.mem_map_of_mem Prod.fst h

theorem alookup_none_iff (L : List (String × FI)) (nm : String) :
    alookup L nm = none ↔ nm ∉ L.map Prod.fst := by
  induction L with
  | nil => simp [alookup]
  | cons e L ih =>
    obtain ⟨k, v⟩ := e
    by_cases hk : k = nm
    · subst hk
      simp [alookup]
    · simp [alookup, hk, ih, Ne.symm hk]

theorem alookup_some_iff (L : List (String × FI))
    (hnd : (L.map Prod.fst).Nodup) (nm : String) (v : FI) :
    alookup L nm = some v ↔ (nm, v) ∈ L := by
  induction L with
  | nil => simp [alookup]
  | cons e L ih =>
    obtain ⟨k, w⟩ := e
    simp only [List.map_cons, List.nodup_cons] at hnd
    obtain ⟨hk, hnd2⟩ := hnd
    by_cases hkn : k = nm
    · subst hkn
      simp only [alookup, if_pos rfl, List.mem_cons]
      constructor
      · intro hw
        left
        simp at hw
        rw [hw]
      · rintro (heq | hmem)
        · obtain ⟨-, h2⟩ := Prod.mk.injEq .. ▸ heq
          simp at heq
          simp [heq]
        · exact absurd (mem_keys_of_mem hmem) hk
    · rw [alookup]
      rw [if_neg hkn, ih hnd2]
      simp only [List.mem_cons]
      constructor
      · intro hmem
        exact Or.inr hmem
      · rintro (heq | hmem)
        · cases heq
          exact absurd rfl hkn
        · exact hmem

theorem mem_leftOut_iff (rhs : List (String × FI)) (fileEq : FI → FI → Bool)
    (L : List (String × FI)) (b : Bucket) (nm : String) :
    nm ∈ leftOut rhs fileEq L b ↔
      ∃ l, (nm, l) ∈ L ∧ classifyLeft rhs fileEq nm l = b := by
  unfold leftOut
  simp only [List.mem_map, List.mem_filter, decide_eq_true_eq]
  constructor
  · rintro ⟨⟨k, l⟩, ⟨hmem, hcl⟩, hfst⟩
    simp only at hfst
    subst hfst
    exact ⟨l, hmem, hcl⟩
  · rintro ⟨l, hmem, hcl⟩
    exact ⟨(nm, l), ⟨hmem, hcl⟩, rfl⟩

theorem mem_rightOut_iff (done funnyKeys : List String)
    (R : List (String × FI)) (b : Bucket) (nm : String) :
    nm ∈ rightOut done funnyKeys R b ↔
      ∃ r, (nm, r) ∈ R ∧ classifyRight done funnyKeys nm r = some b := by
  unfold rightOut
  simp only [List.mem_map, List.mem_filter, decide_eq_true_eq]
  constructor
  · rintro ⟨⟨k, r⟩, ⟨hmem, hcl⟩, hfst⟩
    simp only at hfst
    subst hfst
    exact ⟨r, hmem, hcl⟩
  · rintro ⟨r, hmem, hcl⟩
    exact ⟨(nm, r), ⟨hmem, hcl⟩, rfl⟩

theorem mem_doneMark_iff (rhs : List (String × FI)) (k : String) (l : FI)
    (nm : String) :
    nm ∈ doneMark rhs k l ↔
      nm = k ∧ ∃ r, alookup rhs k = some r ∧
        typeNibble l.mod = typeNibble r.mod := by
  unfold doneMark
  rcases h : alookup rhs k with _ | r
  all_goals simp only []
  · simp [h]
  · by_cases ht : typeNibble l.mod ≠ typeNibble r.mod
    · rw [if_pos ht]
      simp [h]
      intro hnm heq
      exact ht heq
    · rw [if_neg ht]
      have heq := not_ne_iff.mp ht
      simp [h, heq]

theorem mem_doneOf_iff (rhs : List (String × FI)) (L : List (String × FI))
    (nm : String) :
    nm ∈ doneOf rhs L ↔
      ∃ l, (nm, l) ∈ L ∧ ∃ r, alookup rhs nm = some r ∧
        typeNibble l.mod = typeNibble r.mod := by
  induction L with
  | nil => simp [doneOf]
  | cons e L ih =>
    obtain ⟨k, l0⟩ := e
    have hstep : doneOf rhs ((k, l0) :: L) = doneMark rhs k l0 ++ doneOf rhs L := rfl
    rw [hstep]
    simp only [List.mem_append, ih, mem_doneMark_iff]
    constructor
    · rintro (⟨hnm, r, hr, ht⟩ | ⟨l, hmem, hex⟩)
      · subst hnm
        exact ⟨l0, List.mem_cons_self _ _, r, hr, ht⟩
      · exact ⟨l, List.mem_cons_of_mem _ hmem, hex⟩
    · rintro ⟨l, hmem, r, hr, ht⟩
      rcases List.mem_cons.mp hmem with heq | hmem2
      · left
        obtain ⟨h1, h2⟩ := Prod.mk.injEq .. ▸ heq
        subst h1
        subst h2
        exact ⟨rfl, r, hr, ht⟩
      · right
        exact ⟨l, hmem2, r, hr, ht⟩

/-- C7: the two-pass differencer classifies each name present in
either tree into exactly one of the eight classifications: membership
in a classification coincides with the per-name classification
function, no name sits in two classifications, and a name appears in
some classification exactly when it occurs in either input tree.  The
left pass classifies every left-side name (marking shared names done,
or funny); the right pass classifies only names that are neither done
nor funny. -/
theorem c7_diff_partition (lhs rhs : List (String × FI)) (fileEq : FI → FI → Bool)
    (hL : (lhs.map Prod.fst).Nodup) (hR : (rhs.map Prod.fst).Nodup) (nm : String) :
    (∀ b : Bucket, nm ∈ bucketKeys (doDiff lhs rhs fileEq) b ↔
        classify lhs rhs fileEq nm = some b) ∧
    (∀ b b' : Bucket, nm ∈ bucketKeys (doDiff lhs rhs fileEq) b →
        nm ∈ bucketKeys (doDiff lhs rhs fileEq) b' → b = b') ∧
    ((nm ∈ lhs.map Prod.fst ∨ nm ∈ rhs.map Prod.fst) ↔
        ∃ b : Bucket, nm ∈ bucketKeys (doDiff lhs rhs fileEq) b) := by
  have hfunny : (lhs.foldl (fun a e => lhsDiff rhs fileEq a e.1 e.2)
      emptyAcc).funny.map (fun e => e.1) = leftOut rhs fileEq lhs .funnyB := by
    have h := leftFold_bucket rhs fileEq lhs emptyAcc .funnyB
    simpa [bucketKeys, emptyAcc] using h
  have hdone : (lhs.foldl (fun a e => lhsDiff rhs fileEq a e.1 e.2)
      emptyAcc).done = doneOf rhs lhs := by
    have h := leftFold_done rhs fileEq lhs emptyAcc
    simpa [emptyAcc] using h
  have hsplit : ∀ b : Bucket, bucketKeys (doDiff lhs rhs fileEq) b
      = leftOut rhs fileEq lhs b ++
        rightOut (doneOf rhs lhs) (leftOut rhs fileEq lhs .funnyB) rhs b := by
    intro b
    unfold doDiff
    simp only []
    rw [rightFold_bucket, hdone, hfunny, leftFold_bucket]
    cases b <;> simp [bucketKeys, emptyAcc]
  have hcore : ∀ b : Bucket, nm ∈ bucketKeys (doDiff lhs rhs fileEq) b ↔
      classify lhs rhs fileEq nm = some b := by
    intro b
    rw [hsplit b]
    simp only [List.mem_append, mem_leftOut_iff, mem_rightOut_iff]
    unfold classify
    rcases hl : alookup lhs nm with _ | l
    all_goals simp only []
    · have hnotl : ∀ l2 : FI, ¬ (nm, l2) ∈ lhs := by
        intro l2 hmem
        exact (alookup_none_iff lhs nm).mp hl (mem_keys_of_mem hmem)
      have hnotdone : nm ∉ doneOf rhs lhs := by
        rw [mem_doneOf_iff]
        rintro ⟨l2, hmem, -⟩
        exact hnotl l2 hmem
      have hnotfunny : nm ∉ leftOut rhs fileEq lhs .funnyB := by
        rw [mem_leftOut_iff]
        rintro ⟨l2, hmem, -⟩
        exact hnotl l2 hmem
      rcases hr : alookup rhs nm with _ | r
      all_goals simp only []
      · constructor
        · rintro (⟨l2, hmem, -⟩ | ⟨r2, hmem, -⟩)
          · exact absurd hmem (hnotl l2)
          · exact absurd (mem_keys_of_mem hmem) ((alookup_none_iff rhs nm).mp hr)
        · intro h
          cases h
      · constructor
        · rintro (⟨l2, hmem, -⟩ | ⟨r2, hmem, hcr⟩)
          · exact absurd hmem (hnotl l2)
          · have hr2 : r2 = r := by
              have h2 := (alookup_some_iff rhs hR nm r2).mpr hmem
              rw [hr] at h2
              exact (Option.some.inj h2).symm
            subst hr2
            unfold classifyRight at hcr
            rw [if_neg hnotdone, if_neg hnotfunny] at hcr
            exact hcr
        · intro hsome
          right
          refine ⟨r, (alookup_some_iff rhs hR nm r).mp hr, ?_⟩
          unfold classifyRight
          rw [if_neg hnotdone, if_neg hnotfunny]
          exact hsome
    · have hmeml : (nm, l) ∈ lhs := (alookup_some_iff lhs hL nm l).mp hl
      have hnotr : ∀ r2 : FI, (nm, r2) ∈ rhs →
          classifyRight (doneOf rhs lhs) (leftOut rhs fileEq lhs .funnyB) nm r2
            ≠ some b := by
        intro r2 hmem
        have hr : alookup rhs nm = some r2 := (alookup_some_iff rhs hR nm r2).mpr hmem
        unfold classifyRight
        by_cases ht : typeNibble l.mod ≠ typeNibble r2.mod
        · have hfun : nm ∈ leftOut rhs fileEq lhs .funnyB := by
            rw [mem_leftOut_iff]
            refine ⟨l, hmeml, ?_⟩
            unfold classifyLeft
            rw [hr]
            simp only []
            rw [if_pos ht]
          by_cases hd : nm ∈ doneOf rhs lhs
          · rw [if_pos hd]
            simp
          · rw [if_neg hd, if_pos hfun]
            simp
        · have hdn : nm ∈ doneOf rhs lhs := by
            rw [mem_doneOf_iff]
            exact ⟨l, hmeml, r2, hr, not_ne_iff.mp ht⟩
          rw [if_pos hdn]
          simp
      constructor
      · rintro (⟨l2, hmem2, hcl⟩ | ⟨r2, hmem2, hcr⟩)
        · have hl2 : l2 = l := by
            have h2 := (alookup_some_iff lhs hL nm l2).mpr hmem2
            rw [hl] at h2
            exact (Option.some.inj h2).symm
          subst hl2
          rw [hcl]
        · exact absurd hcr (hnotr r2 hmem2)
      · intro hsome
        left
        refine ⟨l, hmeml, ?_⟩
        exact Option.some.inj hsome
  refine ⟨hcore, ?_, ?_⟩
  · intro b b2 h1 h2
    have e1 := (hcore b).mp h1
    have e2 := (hcore b2).mp h2
    rw [e1] at e2
    exact Option.some.inj e2
  · constructor
    · intro hpresent
      rcases hpresent with hmem | hmem
      · rcases List.mem_map.mp hmem with ⟨⟨k, l⟩, hmem2, hfst⟩
        simp only at hfst
        rw [hfst] at hmem2
        refine ⟨classifyLeft rhs fileEq nm l, (hcore _).mpr ?_⟩
        unfold classify
        rw [(alookup_some_iff lhs hL nm l).mpr hmem2]
      · rcases List.mem_map.mp hmem with ⟨⟨k, r⟩, hmem2, hfst⟩
        simp only at hfst
        rw [hfst] at hmem2
        rcases hl : alookup lhs nm with _ | l
        · refine ⟨if r.IsDir then .rightDir else .rightFile, (hcore _).mpr ?_⟩
          unfold classify
          rw [hl, (alookup_some_iff rhs hR nm r).mpr hmem2]
        · refine ⟨classifyLeft rhs fileEq nm l, (hcore _).mpr ?_⟩
          unfold classify
          rw [hl]
    · rintro ⟨b, hmemb⟩
      have hcls := (hcore b).mp hmemb
      unfold classify at hcls
      rcases hl : alookup lhs nm with _ | l
      · rw [hl] at hcls
        rcases hr : alookup rhs nm with _ | r
        · rw [hr] at hcls
          simp at hcls
        · right
          exact mem_keys_of_mem ((alookup_some_iff rhs hR nm r).mp hr)
      · left
        exact mem_keys_of_mem ((alookup_some_iff lhs hL nm l).mp hl)

/-- Witness for C7: the membership-classification equivalence applied
to concrete two-entry trees sharing the regular file "b" with
different sizes. -/
theorem c7_diff_partition_witness :
    "b" ∈ bucketKeys
        (doDiff [("a", ⟨"a", 2 ^ 31, 0, 0, 0, 0, 0, 1, 1⟩),
                 ("b", ⟨"b", 420, 5, 0, 0, 0, 0, 2, 1⟩)]
                [("b", ⟨"b", 420, 9, 0, 0, 0, 0, 3, 1⟩)]
                (fun _ _ => true))
        Bucket.diffB ↔
      classify [("a", ⟨"a", 2 ^ 31, 0, 0, 0, 0, 0, 1, 1⟩),
                ("b", ⟨"b", 420, 5, 0, 0, 0, 0, 2, 1⟩)]
               [("b", ⟨"b", 420, 9, 0, 0, 0, 0, 3, 1⟩)]
               (fun _ _ => true) "b" = some Bucket.diffB :=
  (c7_diff_partition _ _ _ (by decide) (by decide) "b").1 Bucket.diffB

end Cmp

end Fio
